import Mathlib

/-!
Shallow embedding of `cmd/tool/cmd/sendtx.go` from go-seele.

Addresses are modelled as an id together with their shard (the Go code
derives the shard from the address with `addr.Shard()`).  Machine integers:
the Go `amount` field is a signed `int`, modelled as `Int`; the Go `nonce`
is a `uint64`, incremented modulo `2 ^ 64`.  External effects (the RPC
client, `rand.Intn`, key generation, the key file) are passed in as
explicit oracle data; a Go `panic` is modelled as `Except.error` and the
`rand.Intn` panic on a non-positive argument as `Option.none`.
-/

/-- An address together with the shard it belongs to (`addr.Shard()`). -/
structure Address where
  id : Nat
  shard : Nat
deriving DecidableEq, Repr

/-- The `balance` struct of sendtx.go: one funded test account. -/
structure Balance where
  address : Address
  privateKey : Nat
  amount : Int
  shard : Nat
  nonce : Nat
  tx : Option Nat
  packed : Bool
deriving DecidableEq, Repr

/-- The external nondeterminism consumed by one call to `send`:
the value drawn by `rand.Intn`, the freshly generated key pair
(`crypto.MustGenerateShardKeyPair`), the success flag returned by
`util.Sendtx`, and the hash of the transaction it built. -/
structure SendEnv where
  r : Nat
  newId : Nat
  newKey : Nat
  ok : Bool
  txHash : Nat
deriving DecidableEq, Repr

/-- Go's `rand.Intn n`: uniform in `[0, n)`, and panics (`none`) when
`n ≤ 0`. -/
def randIntn (r : Nat) (n : Int) : Option Int :=
  if n ≤ 0 then none else some ((r : Int) % n)

/-- `send` (sendtx.go lines 181-210).  Computes the transfer amount
(`1` when `onlytps`, otherwise `rand.Intn b.amount`), generates a fresh
recipient key pair on the sender's shard, builds the recipient record
with `nonce = 0`, `packed = false`, submits via `util.Sendtx`, and on
success decrements the sender's amount, increments its nonce and stores
the transaction hash in the recipient.  Returns
`(updated sender, new recipient)`; `none` models the `rand.Intn` panic. -/
def send (onlytps : Bool) (e : SendEnv) (b : Balance) : Option (Balance × Balance) :=
  match (if onlytps then some 1 else randIntn e.r b.amount) with
  | none => none
  | some amount =>
    let addr : Address := { id := e.newId, shard := b.address.shard }
    let newBalance : Balance :=
      { address := addr
        privateKey := e.newKey
        amount := amount
        shard := addr.shard
        nonce := 0
        tx := none
        packed := false }
    if e.ok then
      some ({ b with nonce := (b.nonce + 1) % 2 ^ 64, amount := b.amount - amount },
            { newBalance with tx := some e.txHash })
    else
      some (b, newBalance)

/-- One iteration of the body of `loopSend`'s inner loop
(sendtx.go lines 80-84): call `send`, and enqueue the new recipient on
the channel `txCh` exactly when its amount is positive. -/
def sendStep (onlytps : Bool) (e : SendEnv) (b : Balance) :
    Option (Balance × List Balance) :=
  match send onlytps e b with
  | none => none
  | some (b', newBalance) =>
    some (b', if 0 < newBalance.amount then [newBalance] else [])

/-- The full inner loop of `loopSend` over a pool snapshot
(sendtx.go lines 80-97, rate throttling elided): returns the updated
senders in order together with the list of recipients enqueued on
`txCh`.  `none` propagates a `rand.Intn` panic; it is also returned
when the environment list is too short to drive every account. -/
def sendPass (onlytps : Bool) : List SendEnv → List Balance → Option (List Balance × List Balance)
  | _, [] => some ([], [])
  | [], _ :: _ => none
  | e :: es, b :: bs =>
    match sendStep onlytps e b with
    | none => none
    | some (b', enq) =>
      match sendPass onlytps es bs with
      | none => none
      | some (bs', enqs) => some (b' :: bs', enq ++ enqs)

/-- The pool recomputation at the end of a `loopSend` pass
(sendtx.go lines 99-107): keep exactly the accounts with positive
amount. -/
def nextBalanceList (pool : List Balance) : List Balance :=
  pool.filter (fun b => decide (0 < b.amount))

/-- One full `loopSend` cycle: run the pass, then recompute the pool. -/
def sendCycle (onlytps : Bool) (es : List SendEnv) (pool : List Balance) :
    Option (List Balance × List Balance) :=
  match sendPass onlytps es pool with
  | none => none
  | some (pool', enq) => some (nextBalanceList pool', enq)

/-- `getIncludedAndPendingBalance` (sendtx.go lines 147-166).
`statusOf addr hash` is the oracle for `getTx`: `none` models an empty
result map (an RPC error, or a transaction the node does not know);
`some s` models a result map whose `status` field is `s`.  Accounts with
a nil transaction reference are skipped; status `block` goes to the
included list, `pool` to the pending list, and anything else to
neither. -/
def getIncludedAndPendingBalance (statusOf : Address → Nat → Option String) :
    List Balance → List Balance × List Balance
  | [] => ([], [])
  | b :: bs =>
    let rest := getIncludedAndPendingBalance statusOf bs
    match b.tx with
    | none => rest
    | some h =>
      match statusOf b.address h with
      | none => rest
      | some s =>
        if s = "block" then (b :: rest.1, rest.2)
        else if s = "pool" then (rest.1, b :: rest.2)
        else rest

/-- The `checkPack` tick of `loopCheck` (sendtx.go lines 123-129):
classify the tracked accounts, keep the pending ones as the new tracked
list, and file the included ones in a bucket stamped with the current
time.  Buckets are a list of (timestamp, accounts) pairs. -/
def checkPackStep (statusOf : Address → Nat → Option String) (now : Nat)
    (tracked : List Balance) (buckets : List (Nat × List Balance)) :
    List Balance × List (Nat × List Balance) :=
  let r := getIncludedAndPendingBalance statusOf tracked
  (r.2, buckets ++ [(now, r.1)])

/-- `confirmTime` (sendtx.go line 116): the two-minute cool-down,
measured here in seconds. -/
def confirmTime : Nat := 2 * 60

/-- The `confirm` tick of `loopCheck` (sendtx.go lines 130-142): every
bucket older than the cool-down is appended to the pool and deleted;
younger buckets are kept.  Returns the new pool and remaining
buckets. -/
def sweep (now ct : Nat) (pool : List Balance) :
    List (Nat × List Balance) → List Balance × List (Nat × List Balance)
  | [] => (pool, [])
  | (key, value) :: rest =>
    if ct < now - key then
      sweep now ct (pool ++ value) rest
    else
      let r := sweep now ct pool rest
      (r.1, (key, value) :: r.2)

/-- The external collaborators of `initAccount`: key parsing
(`crypto.LoadECDSAFromString`, `none` models a malformed key), address
derivation (`crypto.GetAddress`), the shard-indexed client table
(`clientList`), the balance RPC (`none` models an RPC error, which
`getBalance` turns into a panic) and the nonce RPC. -/
structure InitEnv where
  loadKey : String → Option Nat
  getAddress : Nat → Address
  hasClient : Nat → Bool
  balanceOf : Address → Option Int
  nonceOf : Address → Nat

/-- `getBalance` (sendtx.go lines 282-292): panics on an RPC error,
otherwise returns the amount. -/
def getBalanceM (env : InitEnv) (addr : Address) : Except String Int :=
  match env.balanceOf addr with
  | none => Except.error "getting the balance failed"
  | some amount => Except.ok amount

/-- The key-list loop of `initAccount` (sendtx.go lines 242-277): skip
empty lines, panic on a malformed key, skip shards with no client,
panic on a balance RPC failure, and keep only accounts with positive
amount, fetching their nonce. -/
def initAccountGo (env : InitEnv) : List String → Except String (List Balance)
  | [] => Except.ok []
  | hex :: rest =>
    if hex = "" then initAccountGo env rest
    else
      match env.loadKey hex with
      | none => Except.error "load key failed"
      | some key =>
        if env.hasClient (env.getAddress key).shard then
          match getBalanceM env (env.getAddress key) with
          | Except.error e => Except.error e
          | Except.ok amount =>
            if 0 < amount then
              match initAccountGo env rest with
              | Except.error e => Except.error e
              | Except.ok l =>
                Except.ok
                  ({ address := env.getAddress key
                     privateKey := key
                     amount := amount
                     shard := (env.getAddress key).shard
                     nonce := env.nonceOf (env.getAddress key)
                     tx := none
                     packed := false } :: l)
            else initAccountGo env rest
        else initAccountGo env rest

/-- `initAccount` (sendtx.go lines 231-280): the key file is given as
its list of newline-separated lines; `none` models a failed
`ioutil.ReadFile` (a panic). -/
def initAccount (env : InitEnv) (file : Option (List String)) : Except String (List Balance) :=
  match file with
  | none => Except.error "read key file failed"
  | some lines => initAccountGo env lines

/-! ### Concrete sample data -/

/-- A pool account with amount 5 and nonce 3. -/
def b1 : Balance :=
  { address := ⟨1, 0⟩, privateKey := 11, amount := 5, shard := 0, nonce := 3,
    tx := none, packed := false }

/-- A send environment whose RPC submission fails (`ok = false`). -/
def e1 : SendEnv := { r := 0, newId := 2, newKey := 12, ok := false, txHash := 99 }

/-- The recipient record produced by `send true e1 b1`. -/
def c1 : Balance :=
  { address := ⟨2, 0⟩, privateKey := 12, amount := 1, shard := 0, nonce := 0,
    tx := none, packed := false }

/-- A pool account with amount exactly 1. -/
def b2 : Balance :=
  { address := ⟨1, 0⟩, privateKey := 11, amount := 1, shard := 0, nonce := 0,
    tx := none, packed := false }

/-- A send environment whose RPC submission succeeds. -/
def e2 : SendEnv := { r := 0, newId := 2, newKey := 12, ok := true, txHash := 99 }

/-- A pool account with amount 5 and nonce 0. -/
def b3 : Balance :=
  { address := ⟨1, 0⟩, privateKey := 11, amount := 5, shard := 0, nonce := 0,
    tx := none, packed := false }

/-- A successful send environment drawing 7 from the random source. -/
def e3 : SendEnv := { r := 7, newId := 2, newKey := 12, ok := true, txHash := 99 }

/-- The sender state after `send false e3 b3`: amount 5 - (7 % 5) = 3, nonce 1. -/
def b3s : Balance :=
  { address := ⟨1, 0⟩, privateKey := 11, amount := 3, shard := 0, nonce := 1,
    tx := none, packed := false }

/-- The recipient record produced by `send false e3 b3`. -/
def c3 : Balance :=
  { address := ⟨2, 0⟩, privateKey := 12, amount := 2, shard := 0, nonce := 0,
    tx := some 99, packed := false }

/-! ### Characterization of `send` -/

/-- What `send` returns, spelled out: the chosen amount, the recipient
record, and the sender update that happens only on a successful
submission. -/
lemma send_spec (o : Bool) (e : SendEnv) (b b' c : Balance)
    (h : send o e b = some (b', c)) :
    ∃ amount : Int,
      (if o then some (1 : Int) else randIntn e.r b.amount) = some amount ∧
      c = { address := ⟨e.newId, b.address.shard⟩, privateKey := e.newKey,
            amount := amount, shard := b.address.shard, nonce := 0,
            tx := if e.ok then some e.txHash else none, packed := false } ∧
      b' = (if e.ok then
              { b with nonce := (b.nonce + 1) % 2 ^ 64, amount := b.amount - amount }
            else b) := by
  unfold send at h
  split at h
  · simp at h
  · rename_i amount ho
    refine ⟨amount, ho, ?_⟩
    split at h <;>
      rename_i hok <;>
      simp only [Option.some.injEq, Prod.mk.injEq] at h <;>
      obtain ⟨hb, hc⟩ := h <;>
      subst hb <;> subst hc <;>
      simp [hok]

/-! ### C1 -/

/-- C1 (counterexample): a `send` whose RPC submission fails
(`e1.ok = false`) returns the sender with amount and nonce exactly as
they were (5 and 3) — no balance deduction or nonce increment has
occurred, contrary to the claim that the local mutation still happens
on a failed submission. -/
theorem C1_cex :
    e1.ok = false ∧
    (send true e1 b1).map (fun p => (p.1.amount, p.1.nonce)) = some (5, 3) :=
  ⟨rfl, rfl⟩

/-- C1 (amended): for every send whose RPC submission fails, the sender
account is returned unchanged — `send` applies the balance deduction and
nonce increment only when the submission succeeds. -/
theorem C1_amended (o : Bool) (e : SendEnv) (b b' c : Balance)
    (hok : e.ok = false) (h : send o e b = some (b', c)) : b' = b := by
  obtain ⟨amount, -, -, hb⟩ := send_spec o e b b' c h
  rw [hok] at hb
  simpa using hb

/-- Witness for C1: the hypotheses of `C1_amended` hold at the sample
input, on which the sender comes back unchanged. -/
theorem C1_amended_witness : b1 = b1 :=
  C1_amended true e1 b1 b1 c1 rfl rfl

/-! ### C2 -/

/-- C2 (counterexample): in randomized mode, an account with positive
balance 1 transfers amount 0 — the drawn amount lies in `[0, balance)`
and is not always at least 1. -/
theorem C2_cex :
    (0 : Int) < b2.amount ∧
    (send false e2 b2).map (fun p => p.2.amount) = some 0 :=
  ⟨by decide, rfl⟩

/-- C2 (amended): throughput-only mode transfers exactly the minimal
unit 1; randomized mode transfers a uniformly random amount in
`[0, balance)` — strictly below the balance, but possibly 0. -/
theorem C2_amended (e : SendEnv) (b b' c : Balance) (hpos : 0 < b.amount) :
    (send true e b = some (b', c) → c.amount = 1) ∧
    (send false e b = some (b', c) → 0 ≤ c.amount ∧ c.amount < b.amount) := by
  constructor
  · intro h
    obtain ⟨amount, ha, hc, -⟩ := send_spec true e b b' c h
    simp only [if_true] at ha
    injection ha with ha
    rw [hc, ← ha]
  · intro h
    obtain ⟨amount, ha, hc, -⟩ := send_spec false e b b' c h
    simp only [Bool.false_eq_true, if_false] at ha
    unfold randIntn at ha
    rw [if_neg (not_le.mpr hpos)] at ha
    injection ha with ha
    rw [hc, ← ha]
    exact ⟨Int.emod_nonneg _ (ne_of_gt hpos), Int.emod_lt_of_pos _ hpos⟩

/-- Witness for C2: the hypotheses of `C2_amended` hold at the sample
input (balance 5, random draw 7, so the randomized amount is 2). -/
theorem C2_amended_witness :
    (send true e3 b3 = some (b3s, c3) → c3.amount = 1) ∧
    (send false e3 b3 = some (b3s, c3) → 0 ≤ c3.amount ∧ c3.amount < b3.amount) :=
  C2_amended e3 b3 b3s c3 (by decide)

/-! ### C3 -/

/-- C3 (counterexample): a send whose RPC submission fails is
nevertheless enqueued on the router channel (its amount 1 is positive),
and the enqueued record carries a null transaction reference —
refuting "enqueued iff the submission succeeded" and "every enqueued
recipient has a non-null transaction reference". -/
theorem C3_cex :
    e1.ok = false ∧
    (sendStep true e1 b1).map (fun p => p.2.map Balance.tx) = some [none] :=
  ⟨rfl, rfl⟩

/-- C3 (amended): the recipient is enqueued on the router iff its amount
is positive, independently of submission success; an enqueued recipient
appears exactly once per send, with nonce 0, and its transaction
reference is non-null iff the submission succeeded. -/
theorem C3_amended (o : Bool) (e : SendEnv) (b b' c : Balance)
    (h : send o e b = some (b', c)) :
    sendStep o e b = some (b', if 0 < c.amount then [c] else []) ∧
    c.nonce = 0 ∧ (c.tx.isSome = true ↔ e.ok = true) := by
  refine ⟨?_, ?_, ?_⟩
  · unfold sendStep; rw [h]
  · obtain ⟨amount, -, hc, -⟩ := send_spec o e b b' c h
    rw [hc]
  · obtain ⟨amount, -, hc, -⟩ := send_spec o e b b' c h
    rw [hc]
    cases e.ok <;> simp

/-- Witness for C3: the hypothesis of `C3_amended` holds at the sample
input. -/
theorem C3_amended_witness :
    sendStep false e3 b3 = some (b3s, if 0 < c3.amount then [c3] else []) ∧
    c3.nonce = 0 ∧ (c3.tx.isSome = true ↔ e3.ok = true) :=
  C3_amended false e3 b3 b3s c3 rfl

/-! ### C8 -/

/-- C8 (confirmed): every recipient record constructed by `send` starts
with nonce 0 and packed = false, and carries a non-null transaction
reference only if the submission succeeded. -/
theorem C8_confirmed (o : Bool) (e : SendEnv) (b b' c : Balance)
    (h : send o e b = some (b', c)) :
    c.nonce = 0 ∧ c.packed = false ∧ (c.tx.isSome = true → e.ok = true) := by
  obtain ⟨amount, -, hc, -⟩ := send_spec o e b b' c h
  rw [hc]
  cases e.ok <;> simp

/-- Witness for C8: the hypothesis of `C8_confirmed` holds at the sample
input. -/
theorem C8_confirmed_witness :
    c1.nonce = 0 ∧ c1.packed = false ∧ (c1.tx.isSome = true → e1.ok = true) :=
  C8_confirmed true e1 b1 b1 c1 rfl

/-! ### C4 -/

/-- A status oracle on which every `getTx` call returns an empty result
map (RPC error or unknown transaction). -/
def statusOf4 : Address → Nat → Option String := fun _ _ => none

/-- A tracked account carrying a transaction reference. -/
def b4 : Balance := { b1 with tx := some 7 }

/-- An account whose status fetch comes back empty is classified into
neither the included nor the pending list. -/
lemma getIncluded_not_mem (statusOf : Address → Nat → Option String)
    (b : Balance) (h : Nat) (htx : b.tx = some h)
    (hm : statusOf b.address h = none) (bs : List Balance) :
    b ∉ (getIncludedAndPendingBalance statusOf bs).1 ∧
    b ∉ (getIncludedAndPendingBalance statusOf bs).2 := by
  induction bs with
  | nil => simp [getIncludedAndPendingBalance]
  | cons x bs ih =>
    cases hx : x.tx with
    | none => simpa [getIncludedAndPendingBalance, hx] using ih
    | some hh =>
      cases hs : statusOf x.address hh with
      | none => simpa [getIncludedAndPendingBalance, hx, hs] using ih
      | some s =>
        have hbx : b ≠ x := by
          intro hbx
          subst hbx
          rw [htx] at hx
          injection hx with hx
          subst hx
          rw [hm] at hs
          exact Option.noConfusion hs
        by_cases hblk : s = "block"
        · subst hblk
          simp only [getIncludedAndPendingBalance, hx, hs, if_pos rfl]
          refine ⟨?_, ih.2⟩
          intro hmem
          rcases List.mem_cons.mp hmem with heq | hmem'
          · exact hbx heq
          · exact ih.1 hmem'
        · by_cases hpl : s = "pool"
          · subst hpl
            simp only [getIncludedAndPendingBalance, hx, hs, if_neg hblk, if_pos rfl]
            refine ⟨ih.1, ?_⟩
            intro hmem
            rcases List.mem_cons.mp hmem with heq | hmem'
            · exact hbx heq
            · exact ih.2 hmem'
          · simpa [getIncludedAndPendingBalance, hx, hs, hblk, hpl] using ih

/-- C4 (counterexample): a tracked account whose status fetch returns an
empty result is absent from the new tracked list produced by the poll
tick — it does not remain in the tracked set as the claim states. -/
theorem C4_cex :
    b4.tx = some 7 ∧ (checkPackStep statusOf4 0 [b4] []).1 = [] :=
  ⟨rfl, rfl⟩

/-- C4 (amended): during a confirmation poll, a tracked account whose
status fetch returns a missing or error result is classified as neither
included nor pending, and is therefore dropped from the tracked set at
that poll tick (the tracker loop itself does not fail). -/
theorem C4_amended (statusOf : Address → Nat → Option String) (b : Balance)
    (h : Nat) (now : Nat) (tracked : List Balance)
    (buckets : List (Nat × List Balance))
    (htx : b.tx = some h) (hm : statusOf b.address h = none) :
    b ∉ (getIncludedAndPendingBalance statusOf tracked).1 ∧
    b ∉ (getIncludedAndPendingBalance statusOf tracked).2 ∧
    b ∉ (checkPackStep statusOf now tracked buckets).1 := by
  obtain ⟨h1, h2⟩ := getIncluded_not_mem statusOf b h htx hm tracked
  exact ⟨h1, h2, by simpa [checkPackStep] using h2⟩

/-- Witness for C4: the hypotheses of `C4_amended` hold at the sample
input. -/
theorem C4_amended_witness :
    b4 ∉ (getIncludedAndPendingBalance statusOf4 [b4]).1 ∧
    b4 ∉ (getIncludedAndPendingBalance statusOf4 [b4]).2 ∧
    b4 ∉ (checkPackStep statusOf4 0 [b4] []).1 :=
  C4_amended statusOf4 b4 7 0 [b4] [] rfl rfl

/-! ### Sweep membership lemmas -/

/-- Membership in the pool after a `confirm` sweep: an account is there
iff it was already in the pool or sits in some bucket past the
cool-down. -/
lemma mem_sweep_fst (now ct : Nat) (pool : List Balance)
    (buckets : List (Nat × List Balance)) (a : Balance) :
    a ∈ (sweep now ct pool buckets).1 ↔
      a ∈ pool ∨ ∃ t v, (t, v) ∈ buckets ∧ ct < now - t ∧ a ∈ v := by
  induction buckets generalizing pool with
  | nil => simp [sweep]
  | cons q rest ih =>
    obtain ⟨key, value⟩ := q
    unfold sweep
    by_cases hc : ct < now - key
    · rw [if_pos hc, ih]
      constructor
      · rintro (hp | ⟨t, v, htv, hlt, hav⟩)
        · rcases List.mem_append.mp hp with hp | hp
          · exact Or.inl hp
          · exact Or.inr ⟨key, value, List.mem_cons_self _ _, hc, hp⟩
        · exact Or.inr ⟨t, v, List.mem_cons_of_mem _ htv, hlt, hav⟩
      · rintro (hp | ⟨t, v, htv, hlt, hav⟩)
        · exact Or.inl (List.mem_append.mpr (Or.inl hp))
        · rcases List.mem_cons.mp htv with heq | htv'
          · simp only [Prod.mk.injEq] at heq
            obtain ⟨rfl, rfl⟩ := heq
            exact Or.inl (List.mem_append.mpr (Or.inr hav))
          · exact Or.inr ⟨t, v, htv', hlt, hav⟩
    · rw [if_neg hc]
      show a ∈ (sweep now ct pool rest).1 ↔ _
      rw [ih]
      constructor
      · rintro (hp | ⟨t, v, htv, hlt, hav⟩)
        · exact Or.inl hp
        · exact Or.inr ⟨t, v, List.mem_cons_of_mem _ htv, hlt, hav⟩
      · rintro (hp | ⟨t, v, htv, hlt, hav⟩)
        · exact Or.inl hp
        · rcases List.mem_cons.mp htv with heq | htv'
          · simp only [Prod.mk.injEq] at heq
            obtain ⟨rfl, rfl⟩ := heq
            exact absurd hlt hc
          · exact Or.inr ⟨t, v, htv', hlt, hav⟩

/-- Membership in the buckets remaining after a `confirm` sweep: exactly
the original buckets that have not yet passed the cool-down. -/
lemma mem_sweep_snd (now ct : Nat) (pool : List Balance)
    (buckets : List (Nat × List Balance)) (p : Nat × List Balance) :
    p ∈ (sweep now ct pool buckets).2 ↔ p ∈ buckets ∧ ¬ ct < now - p.1 := by
  induction buckets generalizing pool with
  | nil => simp [sweep]
  | cons q rest ih =>
    obtain ⟨key, value⟩ := q
    unfold sweep
    by_cases hc : ct < now - key
    · rw [if_pos hc, ih]
      constructor
      · rintro ⟨hp, hn⟩
        exact ⟨List.mem_cons_of_mem _ hp, hn⟩
      · rintro ⟨hp, hn⟩
        rcases List.mem_cons.mp hp with heq | hp'
        · subst heq
          exact absurd hc hn
        · exact ⟨hp', hn⟩
    · rw [if_neg hc]
      show p ∈ (key, value) :: (sweep now ct pool rest).2 ↔ _
      constructor
      · intro hp
        rcases List.mem_cons.mp hp with heq | hp'
        · subst heq
          exact ⟨List.mem_cons_self _ _, hc⟩
        · obtain ⟨h1, h2⟩ := (ih pool).mp hp'
          exact ⟨List.mem_cons_of_mem _ h1, h2⟩
      · rintro ⟨hp, hn⟩
        rcases List.mem_cons.mp hp with heq | hp'
        · subst heq
          exact List.mem_cons_self _ _
        · exact List.mem_cons_of_mem _ ((ih pool).mpr ⟨hp', hn⟩)

/-! ### C5 -/

/-- C5 (confirmed): a tracked account placed in the bucket timestamped
`t` (the poll that first reported status `block`) that gets moved back
into the pool by a `confirm` sweep running at time `now` satisfies
`t + confirmTime ≤ now`: re-admission happens no earlier than the
two-minute cool-down after `t`. -/
theorem C5_confirmed (t : Nat) (v : List Balance) (a : Balance)
    (pool : List Balance) (buckets : List (Nat × List Balance)) (now : Nat)
    (hb : (t, v) ∈ buckets) (ha : a ∈ v)
    (huniq : ∀ p ∈ buckets, a ∈ p.2 → p.1 = t)
    (hre : a ∈ (sweep now confirmTime pool buckets).1) (hnp : a ∉ pool) :
    t + confirmTime ≤ now := by
  rcases (mem_sweep_fst now confirmTime pool buckets a).mp hre with
    hp | ⟨t', v', htv, hlt, hav⟩
  · exact absurd hp hnp
  · have ht : t' = t := huniq (t', v') htv hav
    subst ht
    omega

/-- Witness for C5: the hypotheses of `C5_confirmed` hold at the sample
input (bucket stamped 10, sweep at 200). -/
theorem C5_confirmed_witness : 10 + confirmTime ≤ 200 :=
  C5_confirmed 10 [b1] b1 [] [(10, [b1])] 200 (by decide) (by decide)
    (by decide) (by decide) (by decide)

/-! ### C6 -/

/-- C6 (confirmed): a bucket past the cool-down has its accounts
re-admitted by the sweep, and the same sweep deletes the bucket, so a
later sweep tick (run here on the remaining buckets with an empty pool)
can never re-admit the same account again. -/
theorem C6_confirmed (t : Nat) (v : List Balance) (a : Balance)
    (pool : List Balance) (buckets : List (Nat × List Balance)) (now : Nat)
    (hb : (t, v) ∈ buckets) (ha : a ∈ v) (hexp : confirmTime < now - t)
    (huniq : ∀ p ∈ buckets, a ∈ p.2 → p = (t, v)) :
    a ∈ (sweep now confirmTime pool buckets).1 ∧
    ∀ now', a ∉ (sweep now' confirmTime [] (sweep now confirmTime pool buckets).2).1 := by
  constructor
  · exact (mem_sweep_fst now confirmTime pool buckets a).mpr
      (Or.inr ⟨t, v, hb, hexp, ha⟩)
  · intro now' hmem
    rcases (mem_sweep_fst now' confirmTime []
        (sweep now confirmTime pool buckets).2 a).mp hmem with
      hp | ⟨t', v', htv, hlt, hav⟩
    · simp at hp
    · have h2 := (mem_sweep_snd now confirmTime pool buckets (t', v')).mp htv
      have h3 := huniq (t', v') h2.1 hav
      simp only [Prod.mk.injEq] at h3
      obtain ⟨rfl, rfl⟩ := h3
      exact h2.2 hexp

/-- Witness for C6: the hypotheses of `C6_confirmed` hold at the sample
input; the account is re-admitted at time 200 and a second sweep at
time 400 does not re-admit it. -/
theorem C6_confirmed_witness :
    b1 ∈ (sweep 200 confirmTime [] [(10, [b1])]).1 ∧
    b1 ∉ (sweep 400 confirmTime [] (sweep 200 confirmTime [] [(10, [b1])]).2).1 :=
  ⟨(C6_confirmed 10 [b1] b1 [] [(10, [b1])] 200 (by decide) (by decide)
      (by decide) (by decide)).1,
   (C6_confirmed 10 [b1] b1 [] [(10, [b1])] 200 (by decide) (by decide)
      (by decide) (by decide)).2 400⟩

/-! ### Amount bounds and C7 -/

/-- Bounds on the transfer amount chosen by `send`: 1 in throughput-only
mode; in randomized mode nonnegative and strictly below the sender's
balance. -/
lemma send_amount_le (o : Bool) (e : SendEnv) (b : Balance) (amount : Int)
    (hpos : 0 < b.amount)
    (ha : (if o then some (1 : Int) else randIntn e.r b.amount) = some amount) :
    0 ≤ amount ∧ amount ≤ b.amount ∧ (o = false → amount < b.amount) := by
  cases o with
  | false =>
    rw [if_neg (by decide : ¬ (false = true))] at ha
    unfold randIntn at ha
    rw [if_neg (not_le.mpr hpos)] at ha
    injection ha with ha
    subst ha
    have hn := Int.emod_nonneg (e.r : Int) (ne_of_gt hpos)
    have hl := Int.emod_lt_of_pos (e.r : Int) hpos
    exact ⟨hn, le_of_lt hl, fun _ => hl⟩
  | true =>
    rw [if_pos rfl] at ha
    injection ha with ha
    subst ha
    exact ⟨by omega, by omega, fun hcontra => nomatch hcontra⟩

/-- A send step on a positive-balance account leaves the sender
nonnegative and enqueues only positive-amount recipients. -/
lemma sendStep_pres (o : Bool) (e : SendEnv) (b bp : Balance)
    (enq : List Balance) (hpos : 0 < b.amount)
    (h : sendStep o e b = some (bp, enq)) :
    0 ≤ bp.amount ∧ ∀ c ∈ enq, 0 < c.amount := by
  unfold sendStep at h
  split at h
  · exact Option.noConfusion h
  · rename_i b' nb heq
    simp only [Option.some.injEq, Prod.mk.injEq] at h
    obtain ⟨h1, h2⟩ := h
    subst h1
    subst h2
    obtain ⟨amount, ha, hc, hb'⟩ := send_spec o e b _ _ heq
    obtain ⟨ha0, ha1, -⟩ := send_amount_le o e b amount hpos ha
    constructor
    · rw [hb']
      by_cases hok : e.ok = true
      · rw [if_pos hok]
        show (0 : Int) ≤ b.amount - amount
        omega
      · rw [if_neg hok]
        exact le_of_lt hpos
    · intro c hcm
      by_cases hnb : 0 < nb.amount
      · rw [if_pos hnb] at hcm
        rw [List.mem_singleton.mp hcm]
        exact hnb
      · rw [if_neg hnb] at hcm
        exact absurd hcm (List.not_mem_nil c)

/-- If every account entering a `loopSend` pass has positive amount,
every account coming out has nonnegative amount. -/
lemma sendPass_nonneg (o : Bool) (es : List SendEnv) (pool : List Balance) :
    ∀ (pool' enq : List Balance),
      (∀ b ∈ pool, 0 < b.amount) → sendPass o es pool = some (pool', enq) →
      ∀ b ∈ pool', 0 ≤ b.amount := by
  induction pool generalizing es with
  | nil =>
    intro pool' enq hpos h
    have h' : (some (([] : List Balance), ([] : List Balance)) : Option _) =
        some (pool', enq) := by
      cases es <;> exact h
    simp only [Option.some.injEq, Prod.mk.injEq] at h'
    obtain ⟨h1, -⟩ := h'
    subst h1
    intro b hb
    exact absurd hb (List.not_mem_nil b)
  | cons b bs ih =>
    intro pool' enq hpos h
    cases es with
    | nil => exact Option.noConfusion h
    | cons e es' =>
      unfold sendPass at h
      split at h
      · exact Option.noConfusion h
      · rename_i b' enq0 heq1
        split at h
        · exact Option.noConfusion h
        · rename_i bs' enqs heq2
          simp only [Option.some.injEq, Prod.mk.injEq] at h
          obtain ⟨h1, -⟩ := h
          subst h1
          intro x hx
          rcases List.mem_cons.mp hx with rfl | hx'
          · exact (sendStep_pres o e b _ _ (hpos b (List.mem_cons_self _ _)) heq1).1
          · exact ih es' bs' enqs (fun y hy => hpos y (List.mem_cons_of_mem _ hy))
              heq2 x hx'

/-- C7 (confirmed): starting from a pool of positive-amount accounts, a
full `loopSend` pass leaves every account with nonnegative amount, and
the pool recomputed at the end of the pass contains only accounts with
strictly positive amount. -/
theorem C7_confirmed (o : Bool) (es : List SendEnv)
    (pool pool' enq : List Balance)
    (hpos : ∀ b ∈ pool, 0 < b.amount)
    (h : sendPass o es pool = some (pool', enq)) :
    (∀ b ∈ pool', 0 ≤ b.amount) ∧ ∀ b ∈ nextBalanceList pool', 0 < b.amount := by
  refine ⟨sendPass_nonneg o es pool pool' enq hpos h, ?_⟩
  intro b hb
  obtain ⟨-, h2⟩ := List.mem_filter.mp hb
  exact of_decide_eq_true h2

/-- Witness for C7: the hypotheses of `C7_confirmed` hold at the sample
input. -/
theorem C7_confirmed_witness :
    (∀ b ∈ [b1], 0 ≤ b.amount) ∧ ∀ b ∈ nextBalanceList [b1], 0 < b.amount :=
  C7_confirmed true [e1] [b1] [b1] [c1] (by decide) rfl

/-! ### C9 -/

/-- Every account kept by the bootstrap loop has positive amount. -/
lemma initAccountGo_pos (env : InitEnv) (ls : List String) :
    ∀ l : List Balance, initAccountGo env ls = Except.ok l →
      ∀ b ∈ l, 0 < b.amount := by
  induction ls with
  | nil =>
    intro l h
    unfold initAccountGo at h
    injection h with h
    subst h
    intro b hb
    exact absurd hb (List.not_mem_nil b)
  | cons hex rest ih =>
    intro l h
    unfold initAccountGo at h
    by_cases hemp : hex = ""
    · rw [if_pos hemp] at h
      exact ih l h
    · rw [if_neg hemp] at h
      cases hk : env.loadKey hex with
      | none =>
        simp only [hk] at h
        exact Except.noConfusion h
      | some key =>
        simp only [hk] at h
        by_cases hcl : env.hasClient (env.getAddress key).shard = true
        · rw [if_pos hcl] at h
          cases hbal : getBalanceM env (env.getAddress key) with
          | error err =>
            simp only [hbal] at h
            exact Except.noConfusion h
          | ok amount =>
            simp only [hbal] at h
            by_cases hamt : 0 < amount
            · rw [if_pos hamt] at h
              cases hrec : initAccountGo env rest with
              | error err =>
                simp only [hrec] at h
                exact Except.noConfusion h
              | ok l' =>
                simp only [hrec] at h
                injection h with h
                subst h
                intro x hx
                rcases List.mem_cons.mp hx with rfl | hx'
                · exact hamt
                · exact ih l' hrec x hx'
            · rw [if_neg hamt] at h
              exact ih l h
        · rw [if_neg hcl] at h
          exact ih l h

/-- C9 (confirmed): the bootstrap is fatal (returns an error, modelling
the Go panic) on a missing key file, a malformed key, and a balance RPC
failure; it skips empty lines and addresses whose shard has no
configured client; and every account in a successfully built initial
pool has strictly positive amount. -/
theorem C9_confirmed (env : InitEnv)
    (hex1 : String) (rest1 : List String) (h1 : ¬ hex1 = "")
    (h2 : env.loadKey hex1 = none)
    (hex2 : String) (rest2 : List String) (key2 : Nat) (h3 : ¬ hex2 = "")
    (h4 : env.loadKey hex2 = some key2)
    (h5 : env.hasClient (env.getAddress key2).shard = false)
    (hex3 : String) (rest3 : List String) (key3 : Nat) (h6 : ¬ hex3 = "")
    (h7 : env.loadKey hex3 = some key3)
    (h8 : env.hasClient (env.getAddress key3).shard = true)
    (h9 : env.balanceOf (env.getAddress key3) = none)
    (rest0 : List String) (file : Option (List String)) (l : List Balance)
    (hok : initAccount env file = Except.ok l) :
    initAccount env none = Except.error "read key file failed" ∧
    initAccountGo env ("" :: rest0) = initAccountGo env rest0 ∧
    initAccountGo env (hex1 :: rest1) = Except.error "load key failed" ∧
    initAccountGo env (hex2 :: rest2) = initAccountGo env rest2 ∧
    initAccountGo env (hex3 :: rest3) = Except.error "getting the balance failed" ∧
    ∀ b ∈ l, 0 < b.amount := by
  refine ⟨rfl, ?_, ?_, ?_, ?_, ?_⟩
  · simp [initAccountGo]
  · simp only [initAccountGo, if_neg h1, h2]
  · simp only [initAccountGo, if_neg h3, h4,
      if_neg (show ¬ env.hasClient (env.getAddress key2).shard = true by simp [h5])]
  · simp only [initAccountGo, if_neg h6, h7, if_pos h8, getBalanceM, h9]
  · cases file with
    | none => exact Except.noConfusion hok
    | some lines => exact initAccountGo_pos env lines l hok

/-- A concrete bootstrap environment: `k1` parses to a key on a shard
with no client, `k2` to a key whose balance RPC fails, `k3` to a funded
key; everything else is a malformed key. -/
def env0 : InitEnv :=
  { loadKey := fun s =>
      if s = "k1" then some 1 else if s = "k2" then some 2 else
        if s = "k3" then some 3 else none
    getAddress := fun k => ⟨k, k⟩
    hasClient := fun sh => sh == 2 || sh == 3
    balanceOf := fun a => if a.shard = 2 then none else some 5
    nonceOf := fun _ => 7 }

/-- The pool bootstrapped by `env0` from the key file `["k3"]`. -/
def l9 : List Balance :=
  [{ address := ⟨3, 3⟩, privateKey := 3, amount := 5, shard := 3, nonce := 7,
     tx := none, packed := false }]

/-- Witness for C9: the hypotheses of `C9_confirmed` hold at the sample
bootstrap environment. -/
theorem C9_confirmed_witness :
    initAccount env0 none = Except.error "read key file failed" ∧
    initAccountGo env0 ("" :: []) = initAccountGo env0 [] ∧
    initAccountGo env0 ("bad" :: []) = Except.error "load key failed" ∧
    initAccountGo env0 ("k1" :: []) = initAccountGo env0 [] ∧
    initAccountGo env0 ("k2" :: []) = Except.error "getting the balance failed" ∧
    ∀ b ∈ l9, 0 < b.amount :=
  C9_confirmed env0 "bad" [] (by decide) rfl "k1" [] 1 (by decide) rfl rfl
    "k2" [] 2 (by decide) rfl rfl rfl [] (some ["k3"]) l9 rfl

/-! ### C10 -/

/-- In randomized mode, `send` on a positive-balance account never hits
the `rand.Intn` panic. -/
lemma send_rand_isSome (e : SendEnv) (b : Balance) (hpos : 0 < b.amount) :
    (send false e b).isSome = true := by
  unfold send
  rw [if_neg (by decide : ¬ (false = true))]
  unfold randIntn
  rw [if_neg (not_le.mpr hpos)]
  cases e.ok <;> rfl

/-- In randomized mode, a send step on a positive-balance account never
hits the `rand.Intn` panic. -/
lemma sendStep_rand_isSome (e : SendEnv) (b : Balance) (hpos : 0 < b.amount) :
    (sendStep false e b).isSome = true := by
  unfold sendStep
  cases hsd : send false e b with
  | none =>
    exfalso
    have h2 := send_rand_isSome e b hpos
    rw [hsd] at h2
    exact Bool.noConfusion h2
  | some p =>
    obtain ⟨b', nb⟩ := p
    rfl

/-- In randomized mode, a send step on a positive-balance account leaves
the sender strictly positive and enqueues only positive recipients. -/
lemma sendStep_rand_pos (e : SendEnv) (b bp : Balance) (enq : List Balance)
    (hpos : 0 < b.amount) (h : sendStep false e b = some (bp, enq)) :
    0 < bp.amount ∧ ∀ c ∈ enq, 0 < c.amount := by
  unfold sendStep at h
  split at h
  · exact Option.noConfusion h
  · rename_i b' nb heq
    simp only [Option.some.injEq, Prod.mk.injEq] at h
    obtain ⟨h1, h2⟩ := h
    subst h1
    subst h2
    obtain ⟨amount, ha, hc, hb'⟩ := send_spec false e b _ _ heq
    obtain ⟨-, -, hlt⟩ := send_amount_le false e b amount hpos ha
    have hlt' := hlt rfl
    constructor
    · rw [hb']
      by_cases hok : e.ok = true
      · rw [if_pos hok]
        show (0 : Int) < b.amount - amount
        omega
      · rw [if_neg hok]
        exact hpos
    · intro c hcm
      by_cases hnb : 0 < nb.amount
      · rw [if_pos hnb] at hcm
        rw [List.mem_singleton.mp hcm]
        exact hnb
      · rw [if_neg hnb] at hcm
        exact absurd hcm (List.not_mem_nil c)

/-- C10 (confirmed): in randomized mode, starting from a pool in which
every account has positive amount (as the bootstrap, the per-pass
filter and the re-admission path all guarantee), the whole `loopSend`
pass completes without the `rand.Intn` panic — every account reaching
the `rand.Intn b.amount` call has `b.amount > 0` — and both the
resulting pool and the enqueued recipients are again strictly
positive, so the invariant persists across cycles. -/
theorem C10_confirmed (es : List SendEnv) (pool : List Balance)
    (hpos : ∀ b ∈ pool, 0 < b.amount) (hlen : pool.length ≤ es.length) :
    ∃ pool' enq, sendPass false es pool = some (pool', enq) ∧
      (∀ b ∈ pool', 0 < b.amount) ∧ ∀ b ∈ enq, 0 < b.amount := by
  induction pool generalizing es with
  | nil =>
    refine ⟨[], [], ?_, ?_, ?_⟩
    · cases es <;> rfl
    · intro b hb
      exact absurd hb (List.not_mem_nil b)
    · intro b hb
      exact absurd hb (List.not_mem_nil b)
  | cons b bs ih =>
    cases es with
    | nil => simp at hlen
    | cons e es' =>
      have hb : 0 < b.amount := hpos b (List.mem_cons_self _ _)
      have hys := sendStep_rand_isSome e b hb
      cases hsd : sendStep false e b with
      | none =>
        rw [hsd] at hys
        exact Bool.noConfusion hys
      | some p =>
        obtain ⟨bp, enq0⟩ := p
        obtain ⟨hp1, hp2⟩ := sendStep_rand_pos e b bp enq0 hb hsd
        obtain ⟨bs', enqs, hrec, h3, h4⟩ :=
          ih es' (fun y hy => hpos y (List.mem_cons_of_mem _ hy))
            (by simp only [List.length_cons] at hlen ⊢; omega)
        refine ⟨bp :: bs', enq0 ++ enqs, ?_, ?_, ?_⟩
        · unfold sendPass
          rw [hsd, hrec]
        · intro x hx
          rcases List.mem_cons.mp hx with rfl | hx'
          · exact hp1
          · exact h3 x hx'
        · intro x hx
          rcases List.mem_append.mp hx with hx' | hx'
          · exact hp2 x hx'
          · exact h4 x hx'

/-- Witness for C10: the hypotheses of `C10_confirmed` hold at the
sample input. -/
theorem C10_confirmed_witness :
    ∃ pool' enq, sendPass false [e3] [b3] = some (pool', enq) ∧
      (∀ b ∈ pool', 0 < b.amount) ∧ ∀ b ∈ enq, 0 < b.amount :=
  C10_confirmed [e3] [b3] (by decide) (by decide)
